import Mathlib

/-!
Verification of the TKD annotation dashboard core (`data_manager.py`,
`app.py`, `constants.py`) against its specification.

The Python code is shallowly embedded: dictionaries become structures,
JSON scalar correction values are modelled as strings, Python `int` is
`Int`, Python floats appearing in progress statistics are modelled as
rationals (`ℚ`; `round(x, 1)` becomes round-to-nearest on rationals),
and the file system is an explicit association list from path to JSON
value, as the spec prescribes ("treated as an opaque key-value blob
store").  Nondeterministic inputs of the code (`datetime.now()`,
`uuid.uuid4().hex[:8]`) are explicit parameters (`now`, `fresh`).
A dictionary key that is absent and one that is present holding `None`
are both modelled as `Option.none`; the `dict.get(key, default)`
defaults of the code are applied in the `none` case.
-/

namespace TKD

/-! ### Generic list helpers mirroring the Python loop patterns -/

/-- First element satisfying `p`, as in the `for ... return` scan loops. -/
def findFirst {α : Type} (p : α → Bool) : List α → Option α
  | [] => none
  | a :: l => if p a then some a else findFirst p l

/-- Index of the first element satisfying `p`, as in the
`for i, ann in enumerate(...)` / `break` loop of `add_annotation`. -/
def findIdxOpt {α : Type} (p : α → Bool) : List α → Option Nat
  | [] => none
  | a :: l => if p a then some 0 else (findIdxOpt p l).map (· + 1)

/-- `l[n]` as an option. -/
def getOpt {α : Type} : List α → Nat → Option α
  | [], _ => none
  | a :: _, 0 => some a
  | _ :: l, n + 1 => getOpt l n

/-- `l[n] = b` (in-place element assignment). -/
def setAt {α : Type} : List α → Nat → α → List α
  | [], _, _ => []
  | _ :: l, 0, b => b :: l
  | a :: l, n + 1, b => a :: setAt l n b

/-- Number of elements satisfying `p`. -/
def countMatch {α : Type} (p : α → Bool) : List α → Nat
  | [] => 0
  | a :: l => (if p a then 1 else 0) + countMatch p l

/-! ### constants.py -/

/-- `TECHNIQUE_NAMES_REVERSE.get(technique, 9)`: reverse lookup of the
closed 10-class technique table, defaulting to the `neutral_stance`
code 9 (constants.py lines 8-21, used in data_manager.py line 178). -/
def techniqueNamesReverse (t : String) : Nat :=
  if t = "dollyo_chagi" then 0
  else if t = "ap_chagi" then 1
  else if t = "yeop_chagi" then 2
  else if t = "dwit_chagi" then 3
  else if t = "naeryo_chagi" then 4
  else if t = "dwi_huryeo_chagi" then 5
  else if t = "momtong_jireugi" then 6
  else if t = "cut_kick" then 7
  else if t = "block_defense" then 8
  else if t = "neutral_stance" then 9
  else 9

/-! ### data_manager.py — annotations -/

/-- A stored annotation record (the dict literal built at
data_manager.py lines 180-210).  Optional correction layers are
`Option String` (absent key = `none` = JSON `null`). -/
structure Ann where
  video_path : String
  start_frame : Int
  end_frame : Int
  fighter_color : String
  technique : String
  technique_id : Nat
  target_zone : String
  annotator : String
  source : String
  confidence : ℚ
  annotated_by : String
  notes : String
  created_at : String
  annotation_id : String
  attitude : Option String
  guard_stance : Option String
  role : Option String
  action_type : Option String
  leg_used : Option String
  scoring_value : Option String
  penalty : Option String
  scoreboard_red : Option String
  scoreboard_blue : Option String
  scoreboard_round : Option String
  match_name : Option String
  video_part : Option String
  deriving DecidableEq, Repr

/-- A technique event from `{video}_techniques.json`; every field is
read with `event.get(...)`, so each is optional. -/
structure Event where
  start_frame : Option Int
  end_frame : Option Int
  fighter_color : Option String
  technique : Option String
  target_zone : Option String
  classifier_tier : Option String
  deriving DecidableEq, Repr

/-- The `corrections` dict passed to `add_annotation`; every field is
read with `corrections.get(...)`. -/
structure Corrections where
  fighter_color : Option String
  technique : Option String
  target_zone : Option String
  notes : Option String
  attitude : Option String
  guard_stance : Option String
  role : Option String
  action_type : Option String
  leg_used : Option String
  scoring_value : Option String
  penalty : Option String
  scoreboard_red : Option String
  scoreboard_blue : Option String
  scoreboard_round : Option String
  match_name : Option String
  video_part : Option String
  deriving DecidableEq, Repr

/-- The identity-key test of data_manager.py lines 171-173 (also the
delete and find filters, lines 235-237 and 252-254). -/
def keyMatches (sf ef : Int) (fc : String) (a : Ann) : Bool :=
  a.start_frame == sf && a.end_frame == ef && a.fighter_color == fc

/-- The fresh `annotation_id` of data_manager.py lines 216-218. -/
def freshAnnotationId (video_stem fc : String) (sf ef : Int) (fresh : String) : String :=
  video_stem ++ "_" ++ fc ++ "_" ++ toString sf ++ "_" ++ toString ef ++ "_" ++ fresh

/-- The annotation dict literal of data_manager.py lines 180-210;
`existed` is `existing_idx is not None`, `now` is
`datetime.now().isoformat()`.  `annotation_id` starts `""` (line 194)
and is filled in by the caller. -/
def buildAnn (video_stem : String) (e : Event) (c : Corrections)
    (annotated_by now : String) (existed : Bool) : Ann :=
  let sf := e.start_frame.getD 0
  let ef := e.end_frame.getD 0
  let fc := c.fighter_color.getD (e.fighter_color.getD "unknown")
  let technique := c.technique.getD (e.technique.getD "neutral_stance")
  { video_path := video_stem ++ ".mp4"
    start_frame := sf
    end_frame := ef
    fighter_color := fc
    technique := technique
    technique_id := techniqueNamesReverse technique
    target_zone := c.target_zone.getD (e.target_zone.getD "trunk")
    annotator := if existed then "verified" else "manual"
    source := "confirmed_" ++ e.classifier_tier.getD "rule_based"
    confidence := 1
    annotated_by := annotated_by
    notes := c.notes.getD ""
    created_at := now
    annotation_id := ""
    attitude := c.attitude
    guard_stance := c.guard_stance
    role := c.role
    action_type := c.action_type
    leg_used := c.leg_used
    scoring_value := c.scoring_value
    penalty := c.penalty
    scoreboard_red := c.scoreboard_red
    scoreboard_blue := c.scoreboard_blue
    scoreboard_round := c.scoreboard_round
    match_name := c.match_name
    video_part := c.video_part }

/-- `add_annotation` (data_manager.py lines 148-223) on the in-memory
annotation list; returns `(annotation_id, updated list)`.  `now` and
`fresh` stand for the wall clock and the uuid suffix. -/
def addAnnotationRecord (video_stem : String) (e : Event) (c : Corrections)
    (annotated_by now fresh : String) (anns : List Ann) : String × List Ann :=
  let sf := e.start_frame.getD 0
  let ef := e.end_frame.getD 0
  let fc := c.fighter_color.getD (e.fighter_color.getD "unknown")
  let existing_idx := findIdxOpt (keyMatches sf ef fc) anns
  let ann := buildAnn video_stem e c annotated_by now existing_idx.isSome
  match existing_idx with
  | some i =>
      let ann := { ann with
        annotation_id := ((getOpt anns i).map Ann.annotation_id).getD "" }
      (ann.annotation_id, setAt anns i ann)
  | none =>
      let ann := { ann with
        annotation_id := freshAnnotationId video_stem fc sf ef fresh }
      (ann.annotation_id, anns ++ [ann])

/-- `delete_annotation` (data_manager.py lines 226-244): filters out
every record matching the identity key; returns whether anything was
removed, together with the resulting list. -/
def deleteAnnotationRecord (sf ef : Int) (fc : String) (anns : List Ann) : Bool × List Ann :=
  let kept := anns.filter (fun a => !(keyMatches sf ef fc a))
  if kept.length < anns.length then (true, kept) else (false, anns)

/-- `get_annotation_for_event` (data_manager.py lines 247-256). -/
def getAnnotationForEvent (sf ef : Int) (fc : String) (anns : List Ann) : Option Ann :=
  findFirst (keyMatches sf ef fc) anns

/-- Python `round(x, 1)` modelled on rationals: round to the nearest
tenth (ties rounded up rather than to even, which the claims never
exercise). -/
def pyRound1 (q : ℚ) : ℚ := (round (q * 10) : ℤ) / 10

/-- Result of `get_annotation_stats` (data_manager.py lines 259-279).
The `by_annotator` / `by_technique` dicts are modelled extensionally as
count functions. -/
structure Stats where
  total_events : Int
  annotated : Nat
  remaining : Int
  progress_pct : ℚ
  by_annotator : String → Nat
  by_technique : String → Nat

/-- `get_annotation_stats` (data_manager.py lines 259-279).
`who = ann.get("annotated_by", "Unknown") or "Unknown"` maps the empty
string to `"Unknown"`. -/
def getAnnotationStats (anns : List Ann) (total_events : Int) : Stats :=
  { total_events := total_events
    annotated := anns.length
    remaining := max 0 (total_events - anns.length)
    progress_pct := pyRound1 ((anns.length : ℚ) / (max 1 total_events : Int) * 100)
    by_annotator := fun who =>
      countMatch (fun a => (if a.annotated_by = "" then "Unknown" else a.annotated_by) == who) anns
    by_technique := fun t => countMatch (fun a => a.technique == t) anns }

/-! ### data_manager.py — match groups -/

/-- One entry of a group's `videos` list: `{"video_stem": ..., "part": ...}`. -/
structure VideoEntry where
  video_stem : String
  part : Int
  deriving DecidableEq, Repr

/-- One match group: `{"red_name": ..., "blue_name": ..., "videos": [...]}`. -/
structure MatchGroup where
  red_name : String
  blue_name : String
  videos : List VideoEntry
  deriving DecidableEq, Repr

/-- The `_matches.json` dict, `match_name → group`, as an ordered
association list (Python dicts preserve insertion order and keep keys
unique; lookups below are first-occurrence). -/
abbrev MatchStore := List (String × MatchGroup)

/-- Stable insertion of a video entry into a part-sorted list: the new
entry goes after existing entries of equal part. -/
def insertVideo (v : VideoEntry) : List VideoEntry → List VideoEntry
  | [] => [v]
  | w :: ws => if w.part ≤ v.part then w :: insertVideo v ws else v :: w :: ws

/-- `videos.sort(key=lambda v: v.get("part", 1))` (data_manager.py
line 351): Python's sort is stable, and any two stable sorts by the
same key coincide, so stable insertion sort models it exactly. -/
def sortVideos (l : List VideoEntry) : List VideoEntry :=
  l.foldl (fun acc v => insertVideo v acc) []

/-- `part`-update of the first entry whose `video_stem` matches, as in
the `for v in videos: ... break` loop (data_manager.py lines 342-346). -/
def updateFirstVideo (video_stem : String) (part : Int) :
    List VideoEntry → List VideoEntry
  | [] => []
  | v :: vs =>
    if v.video_stem == video_stem then { v with part := part } :: vs
    else v :: updateFirstVideo video_stem part vs

/-- Replace (the first occurrence of) key `n`'s group by `f` of it. -/
def updateGroup (n : String) (f : MatchGroup → MatchGroup) : MatchStore → MatchStore
  | [] => []
  | (m, g) :: t =>
    if m == n then (m, f g) :: t else (m, g) :: updateGroup n f t

/-- First-occurrence lookup of a group by name (`matches[match_name]`). -/
def lookupGroup (n : String) (s : MatchStore) : Option MatchGroup :=
  (findFirst (fun p => p.1 == n) s).map Prod.snd

/-- The per-group mutation of `save_match_group` (data_manager.py
lines 333-352): conditional name updates, video update-or-append,
re-sort by part. -/
def saveGroupStep (video_stem : String) (part : Int) (red_name blue_name : String)
    (g : MatchGroup) : MatchGroup :=
  let g := if red_name ≠ "" then { g with red_name := red_name } else g
  let g := if blue_name ≠ "" then { g with blue_name := blue_name } else g
  let videos :=
    if g.videos.any (fun w => w.video_stem == video_stem) then
      updateFirstVideo video_stem part g.videos
    else g.videos ++ [⟨video_stem, part⟩]
  { g with videos := sortVideos videos }

/-- `save_match_group` (data_manager.py lines 322-353) on the in-memory
store: creates the group if absent (Python dict insertion appends), then
applies the per-group mutation. -/
def saveMatchGroup (match_name video_stem : String) (part : Int)
    (red_name blue_name : String) (s : MatchStore) : MatchStore :=
  let s :=
    if (lookupGroup match_name s).isSome then s
    else s ++ [(match_name, ⟨red_name, blue_name, []⟩)]
  updateGroup match_name (saveGroupStep video_stem part red_name blue_name) s

/-- Match stores reachable by `save_match_group` calls from the empty
store (no other code mutates `_matches.json`). -/
inductive ReachableMatches : MatchStore → Prop
  | empty : ReachableMatches []
  | step (n v : String) (p : Int) (r b : String) {s : MatchStore} :
      ReachableMatches s → ReachableMatches (saveMatchGroup n v p r b s)

/-! ### app.py — inference rules (stateless pure functions) -/

/-- `_ROLE_MIRROR.get` (app.py lines 775-779): the role-mirror dict of
the suggestion engine, `None` outside its three keys. -/
def roleMirror (r : String) : Option String :=
  if r = "Attack" then some "Contre Attack"
  else if r = "Contre Attack" then some "Attack"
  else if r = "Defence" then some "Attack"
  else none

/-- `pat.toList` is a prefix of the character list. -/
def startsWithSeq : List Char → List Char → Bool
  | _, [] => true
  | [], _ :: _ => false
  | c :: cs, p :: ps => c == p && startsWithSeq cs ps

/-- Substring containment on character lists (Python `pat in s`). -/
def containsSeq : List Char → List Char → Bool
  | [], pat => pat.isEmpty
  | c :: cs, pat => startsWithSeq (c :: cs) pat || containsSeq cs pat

/-- Python's `pat in s` on strings. -/
def strContains (s pat : String) : Bool := containsSeq s.toList pat.toList

/-- `_penalty_pts` (app.py lines 787-795); the argument is `None` or a
string, and Python's `not penalty_str` is true for `None` and `""`. -/
def penaltyPts (p : Option String) : Nat :=
  match p with
  | none => 0
  | some s =>
    if s = "" ∨ s = "None" then 0
    else if strContains s "(-2)" || strContains s "(+2)" then 2
    else if strContains s "(-1)" || strContains s "(+1)" then 1
    else 0

/-- The layer-8 default of `_render_fighter_layers` (app.py lines
912-918): if the other fighter's penalty carries points and no stored
scoring value matched, suggest `str(points)`. -/
def scoringValueDefault (stored other_penalty : Option String) : Option String :=
  let pts := penaltyPts other_penalty
  if 0 < pts ∧ stored = none then some (toString pts) else stored

/-- The layer-3 role default of `_render_fighter_layers` (app.py lines
854-862): keep a matched stored role; otherwise, for the reactive
(non-active) fighter only, mirror the other fighter's truthy role. -/
def roleDefault (stored : Option String) (isActive : Bool)
    (otherRole : Option String) : Option String :=
  if stored = none ∧ isActive = false then
    match otherRole with
    | some o => if o = "" then none else roleMirror o
    | none => none
  else stored

/-! ### data_manager.py — match-store persistence (C9) -/

/-- JSON values, as written by `json.dump` and read by `json.load`
(numbers in `_matches.json` are integer parts). -/
inductive Json where
  | null : Json
  | bool : Bool → Json
  | num : Int → Json
  | str : String → Json
  | arr : List Json → Json
  | obj : List (String × Json) → Json

/-- JSON shape of one `videos` entry. -/
def videoToJson (v : VideoEntry) : Json :=
  .obj [("video_stem", .str v.video_stem), ("part", .num v.part)]

/-- Structural decoder for one `videos` entry. -/
def videoFromJson : Json → Option VideoEntry
  | .obj [("video_stem", .str s), ("part", .num p)] => some ⟨s, p⟩
  | _ => none

/-- Decode each element of a list, failing if any element fails. -/
def decodeList {α : Type} (f : Json → Option α) : List Json → Option (List α)
  | [] => some []
  | j :: js =>
    match f j, decodeList f js with
    | some a, some l => some (a :: l)
    | _, _ => none

/-- JSON shape of one match group. -/
def groupToJson (g : MatchGroup) : Json :=
  .obj [("red_name", .str g.red_name), ("blue_name", .str g.blue_name),
        ("videos", .arr (g.videos.map videoToJson))]

/-- Structural decoder for one match group. -/
def groupFromJson : Json → Option MatchGroup
  | .obj [("red_name", .str r), ("blue_name", .str b), ("videos", .arr vs)] =>
    (decodeList videoFromJson vs).map fun l => ⟨r, b, l⟩
  | _ => none

/-- JSON shape of the whole `_matches.json` dict. -/
def matchStoreToJson (s : MatchStore) : Json :=
  .obj (s.map fun p => (p.1, groupToJson p.2))

/-- Decode the named entries of a `_matches.json` object. -/
def decodeEntries : List (String × Json) → Option MatchStore
  | [] => some []
  | (n, j) :: t =>
    match groupFromJson j, decodeEntries t with
    | some g, some s => some ((n, g) :: s)
    | _, _ => none

/-- Structural decoder for the whole `_matches.json` dict. -/
def matchStoreFromJson : Json → Option MatchStore
  | .obj fields => decodeEntries fields
  | _ => none

/-- The blob store: path → JSON document, per the spec's "opaque
key-value blob store" model of the file system. -/
abbrev FileStore := List (String × Json)

/-- `save_matches` (data_manager.py lines 297-301): overwrite
`_matches.json` with the serialized store. -/
def saveMatches (j : Json) (fs : FileStore) : FileStore :=
  ("_matches.json", j) :: fs

/-- `load_matches` (data_manager.py lines 288-294): read
`_matches.json`, returning the empty dict when the file is absent. -/
def loadMatches (fs : FileStore) : Json :=
  ((findFirst (fun p => p.1 == "_matches.json") fs).map Prod.snd).getD (.obj [])

/-! ### Concrete sample data (used by counterexamples and witnesses) -/

/-- A concrete stored annotation (key `(0, 1, "red")`). -/
def sampleAnn : Ann where
  video_path := "match01.mp4"
  start_frame := 0
  end_frame := 1
  fighter_color := "red"
  technique := "ap_chagi"
  technique_id := 1
  target_zone := "trunk"
  annotator := "manual"
  source := "confirmed_rule_based"
  confidence := 1
  annotated_by := "Coach"
  notes := ""
  created_at := "2026-01-01T00:00:00"
  annotation_id := "match01_red_0_1_aaaaaaaa"
  attitude := none
  guard_stance := none
  role := none
  action_type := none
  leg_used := none
  scoring_value := none
  penalty := none
  scoreboard_red := none
  scoreboard_blue := none
  scoreboard_round := none
  match_name := none
  video_part := none

/-- A second stored annotation with a different key `(5, 9, "blue")`. -/
def sampleAnn2 : Ann :=
  { sampleAnn with
      start_frame := 5, end_frame := 9, fighter_color := "blue",
      annotation_id := "match01_blue_5_9_bbbbbbbb" }

/-- A concrete technique event with key `(10, 20, "red")`. -/
def sampleEvent : Event where
  start_frame := some 10
  end_frame := some 20
  fighter_color := some "red"
  technique := some "ap_chagi"
  target_zone := some "trunk"
  classifier_tier := none

/-- Empty corrections dict (all keys absent). -/
def emptyCorrections : Corrections where
  fighter_color := none
  technique := none
  target_zone := none
  notes := none
  attitude := none
  guard_stance := none
  role := none
  action_type := none
  leg_used := none
  scoring_value := none
  penalty := none
  scoreboard_red := none
  scoreboard_blue := none
  scoreboard_round := none
  match_name := none
  video_part := none

/-! ## Claim C5 — role-mirror inference -/

/-- The role mirror never suggests Defence. -/
lemma roleMirror_ne_defence (x : String) : roleMirror x ≠ some "Defence" := by
  unfold roleMirror
  split_ifs <;> simp

/-- The reactive-fighter role default never suggests Defence. -/
lemma roleDefault_reactive_ne_defence (x : String) :
    roleDefault none false (some x) ≠ some "Defence" := by
  unfold roleDefault
  rw [if_pos ⟨rfl, rfl⟩]
  show (if x = "" then none else roleMirror x) ≠ some "Defence"
  split_ifs with h
  · simp
  · exact roleMirror_ne_defence x

/-- C5: the role mirror maps exactly Attack ↦ Contre Attack,
Contre Attack ↦ Attack and Defence ↦ Attack; any role outside these
three yields no suggestion, the mirror never suggests Defence, and in
the layer-3 default logic the reactive opponent of an attacker is
suggested Contre Attack. -/
theorem roleMirror_exact (r : String)
    (h1 : r ≠ "Attack") (h2 : r ≠ "Contre Attack") (h3 : r ≠ "Defence") :
    roleMirror "Attack" = some "Contre Attack" ∧
    roleMirror "Contre Attack" = some "Attack" ∧
    roleMirror "Defence" = some "Attack" ∧
    roleMirror r = none ∧
    (∀ x : String, roleMirror x ≠ some "Defence") ∧
    roleDefault none false (some "Attack") = some "Contre Attack" ∧
    (∀ x : String, roleDefault none false (some x) ≠ some "Defence") := by
  refine ⟨by decide, by decide, by decide, ?_, roleMirror_ne_defence, by decide,
    roleDefault_reactive_ne_defence⟩
  unfold roleMirror
  simp [h1, h2, h3]

/-- Witness for C5 at the concrete role `"Clinch"`. -/
theorem roleMirror_exact_witness :
    roleMirror "Attack" = some "Contre Attack" ∧
    roleMirror "Contre Attack" = some "Attack" ∧
    roleMirror "Defence" = some "Attack" ∧
    roleMirror "Clinch" = none ∧
    (∀ x : String, roleMirror x ≠ some "Defence") ∧
    roleDefault none false (some "Attack") = some "Contre Attack" ∧
    (∀ x : String, roleDefault none false (some x) ≠ some "Defence") :=
  roleMirror_exact "Clinch" (by decide) (by decide) (by decide)

/-! ## Claim C6 — penalty-to-score suggestion -/

/-- Unfolding equation for `penaltyPts` on a present string. -/
lemma penaltyPts_some (s : String) :
    penaltyPts (some s) =
      if s = "" ∨ s = "None" then 0
      else if (strContains s "(-2)" || strContains s "(+2)") = true then 2
      else if (strContains s "(-1)" || strContains s "(+1)") = true then 1
      else 0 := rfl

/-- C6: `_penalty_pts` yields 2 for a string containing `(-2)` or
`(+2)`, 1 for one containing `(-1)` or `(+1)` (and no 2-point marker),
and 0 for an absent penalty, `"None"`, the empty string, or any string
without a point marker; the concrete penalty `"Fall 10 sec (-2)"` gives
the opponent a suggested scoring value of `"2"`. -/
theorem penaltyPts_spec (s t u : String)
    (hs : strContains s "(-2)" = true ∨ strContains s "(+2)" = true)
    (ht : strContains t "(-1)" = true ∨ strContains t "(+1)" = true)
    (ht2 : strContains t "(-2)" = false) (ht2' : strContains t "(+2)" = false)
    (hu2 : strContains u "(-2)" = false) (hu2' : strContains u "(+2)" = false)
    (hu1 : strContains u "(-1)" = false) (hu1' : strContains u "(+1)" = false) :
    penaltyPts (some s) = 2 ∧
    penaltyPts (some t) = 1 ∧
    penaltyPts none = 0 ∧
    penaltyPts (some "None") = 0 ∧
    penaltyPts (some "") = 0 ∧
    penaltyPts (some u) = 0 ∧
    penaltyPts (some "Fall 10 sec (-2)") = 2 ∧
    scoringValueDefault none (some "Fall 10 sec (-2)") = some "2" := by
  refine ⟨?_, ?_, by decide, by decide, by decide, ?_, by decide, by decide⟩
  · have hne : ¬(s = "" ∨ s = "None") := by
      rintro (rfl | rfl) <;> rcases hs with h | h <;> exact absurd h (by decide)
    rw [penaltyPts_some, if_neg hne,
      if_pos (show (strContains s "(-2)" || strContains s "(+2)") = true by
        rcases hs with h | h <;> simp [h])]
  · have hne : ¬(t = "" ∨ t = "None") := by
      rintro (rfl | rfl) <;> rcases ht with h | h <;> exact absurd h (by decide)
    rw [penaltyPts_some, if_neg hne,
      if_neg (show ¬(strContains t "(-2)" || strContains t "(+2)") = true by
        simp [ht2, ht2']),
      if_pos (show (strContains t "(-1)" || strContains t "(+1)") = true by
        rcases ht with h | h <;> simp [h])]
  · rw [penaltyPts_some]
    split_ifs with h h2 h1
    · rfl
    · simp [hu2, hu2'] at h2
    · simp [hu1, hu1'] at h1
    · rfl

/-- Witness for C6 at concrete penalty strings. -/
theorem penaltyPts_spec_witness :
    penaltyPts (some "Fall 10 sec (-2)") = 2 ∧
    penaltyPts (some "Out (-1)") = 1 ∧
    penaltyPts none = 0 ∧
    penaltyPts (some "None") = 0 ∧
    penaltyPts (some "") = 0 ∧
    penaltyPts (some "Apal min foug") = 0 ∧
    penaltyPts (some "Fall 10 sec (-2)") = 2 ∧
    scoringValueDefault none (some "Fall 10 sec (-2)") = some "2" := by
  have h := penaltyPts_spec "Fall 10 sec (-2)" "Out (-1)" "Apal min foug"
    (Or.inl (by decide)) (Or.inl (by decide)) (by decide) (by decide)
    (by decide) (by decide) (by decide) (by decide)
  exact h

/-! ## Claim C2 — annotation progress statistics -/

/-- Counterexample to C2 as stated: with two stored annotations and
`total_event_count = 0` (a value the claim explicitly includes), the
code's `progress_pct` is `round(2 / max(1,0) * 100, 1) = 200.0`,
outside `[0, 100]`. -/
theorem stats_pct_exceeds_100_counterexample :
    (getAnnotationStats [sampleAnn, sampleAnn2] 0).progress_pct = 200 ∧
    ¬((getAnnotationStats [sampleAnn, sampleAnn2] 0).progress_pct ≤ 100) := by
  have h : (getAnnotationStats [sampleAnn, sampleAnn2] 0).progress_pct = 200 := by
    show pyRound1 (((2 : Nat) : ℚ) / ((max 1 0 : Int) : ℚ) * 100) = 200
    unfold pyRound1
    norm_num
  exact ⟨h, by rw [h]; norm_num⟩

/-- `pyRound1` of a nonnegative rational is nonnegative. -/
lemma pyRound1_nonneg {q : ℚ} (h : 0 ≤ q) : 0 ≤ pyRound1 q := by
  unfold pyRound1
  apply div_nonneg _ (by norm_num)
  have h0 : (0 : ℤ) ≤ round (q * 10) := by
    rw [round_eq]
    exact Int.le_floor.mpr (by push_cast; linarith)
  exact_mod_cast h0

/-- `pyRound1` of a rational at most 100 is at most 100. -/
lemma pyRound1_le_100 {q : ℚ} (h : q ≤ 100) : pyRound1 q ≤ 100 := by
  unfold pyRound1
  rw [div_le_iff₀ (by norm_num : (0 : ℚ) < 10)]
  have hb : round (q * 10) ≤ (1000 : ℤ) := by
    rw [round_eq]
    have hfl : ((⌊q * 10 + 1 / 2⌋ : ℤ) : ℚ) ≤ q * 10 + 1 / 2 := Int.floor_le _
    have hlt : ((⌊q * 10 + 1 / 2⌋ : ℤ) : ℚ) < 1001 := by linarith
    have : ⌊q * 10 + 1 / 2⌋ < (1001 : ℤ) := by exact_mod_cast hlt
    omega
  calc ((round (q * 10) : ℤ) : ℚ) ≤ ((1000 : ℤ) : ℚ) := by exact_mod_cast hb
    _ = 100 * 10 := by norm_num

/-- C2 amended: `get_annotation_stats` reports `annotated` equal to the
stored annotation count, echoes `total_events`, keeps `remaining`
nonnegative, and keeps `progress_pct` within `[0,100]` whenever the
stored count is at most `max 1 N`.  Without that bound the percentage
is not clamped and can leave `[0,100]`, as the counterexample shows. -/
theorem stats_spec_amended (anns : List Ann) (N : Int)
    (h : (anns.length : Int) ≤ max 1 N) :
    (getAnnotationStats anns N).annotated = anns.length ∧
    (getAnnotationStats anns N).total_events = N ∧
    0 ≤ (getAnnotationStats anns N).remaining ∧
    0 ≤ (getAnnotationStats anns N).progress_pct ∧
    (getAnnotationStats anns N).progress_pct ≤ 100 := by
  have hd : (1 : ℚ) ≤ ((max 1 N : Int) : ℚ) := by
    exact_mod_cast le_max_left 1 N
  have hd0 : (0 : ℚ) < ((max 1 N : Int) : ℚ) := lt_of_lt_of_le one_pos hd
  have hlen : ((anns.length : ℚ)) ≤ ((max 1 N : Int) : ℚ) := by exact_mod_cast h
  refine ⟨rfl, rfl, le_max_left 0 _, ?_, ?_⟩
  · exact pyRound1_nonneg (by positivity)
  · apply pyRound1_le_100
    rw [div_mul_eq_mul_div, div_le_iff₀ hd0]
    nlinarith [Nat.cast_nonneg (α := ℚ) anns.length]

/-- Witness for C2 amended: one stored annotation out of three events. -/
theorem stats_spec_amended_witness :
    ((([sampleAnn] : List Ann).length : Int) ≤ max 1 3) ∧
    ((getAnnotationStats [sampleAnn] 3).annotated = [sampleAnn].length ∧
     (getAnnotationStats [sampleAnn] 3).total_events = 3 ∧
     0 ≤ (getAnnotationStats [sampleAnn] 3).remaining ∧
     0 ≤ (getAnnotationStats [sampleAnn] 3).progress_pct ∧
     (getAnnotationStats [sampleAnn] 3).progress_pct ≤ 100) :=
  ⟨by decide, stats_spec_amended [sampleAnn] 3 (by decide)⟩

/-! ## Claim C9 — match-store round trip -/

/-- One `videos` entry decodes back from its JSON shape. -/
lemma videoFromJson_toJson (v : VideoEntry) : videoFromJson (videoToJson v) = some v := rfl

/-- A list of `videos` entries decodes back from its JSON shapes. -/
lemma decodeList_video (vs : List VideoEntry) :
    decodeList videoFromJson (vs.map videoToJson) = some vs := by
  induction vs with
  | nil => rfl
  | cons v vs ih => simp [decodeList, videoFromJson_toJson, ih]

/-- A match group decodes back from its JSON shape. -/
lemma groupFromJson_toJson (g : MatchGroup) : groupFromJson (groupToJson g) = some g := by
  simp [groupToJson, groupFromJson, decodeList_video]

/-- The named group entries decode back from their JSON shapes. -/
lemma decodeEntries_toJson (s : MatchStore) :
    decodeEntries (s.map fun p => (p.1, groupToJson p.2)) = some s := by
  induction s with
  | nil => rfl
  | cons p s ih => simp [decodeEntries, groupFromJson_toJson, ih]

/-- C9: saving a match-group collection with `save_matches` and
reloading with `load_matches` returns the same JSON document, and the
document decodes to a structurally equal collection. -/
theorem match_store_roundtrip (fs : FileStore) (ms : MatchStore) :
    loadMatches (saveMatches (matchStoreToJson ms) fs) = matchStoreToJson ms ∧
    matchStoreFromJson (matchStoreToJson ms) = some ms := by
  constructor
  · simp [loadMatches, saveMatches, findFirst]
  · simp [matchStoreFromJson, matchStoreToJson, decodeEntries_toJson]

/-! ## Match-store invariants (C3, C4, C8) -/

/-- Inserting keeps a permutation of pushing in front. -/
lemma insertVideo_perm (v : VideoEntry) (l : List VideoEntry) :
    (insertVideo v l).Perm (v :: l) := by
  induction l with
  | nil => exact List.Perm.refl _
  | cons w ws ih =>
    unfold insertVideo
    split_ifs with h
    · exact (ih.cons w).trans (List.Perm.swap v w ws)
    · exact List.Perm.refl _

/-- The insertion fold permutes its input. -/
lemma foldl_insert_perm (l acc : List VideoEntry) :
    (l.foldl (fun a v => insertVideo v a) acc).Perm (l ++ acc) := by
  induction l generalizing acc with
  | nil => simp
  | cons v vs ih =>
    simp only [List.foldl_cons]
    exact ((ih (insertVideo v acc)).trans
      ((insertVideo_perm v acc).append_left vs)).trans List.perm_middle

/-- `sortVideos` permutes its input. -/
lemma sortVideos_perm (l : List VideoEntry) : (sortVideos l).Perm l := by
  simpa using foldl_insert_perm l []

/-- Insertion preserves part-sortedness. -/
lemma pairwise_insertVideo {v : VideoEntry} {l : List VideoEntry}
    (h : l.Pairwise (fun a b => a.part ≤ b.part)) :
    (insertVideo v l).Pairwise (fun a b => a.part ≤ b.part) := by
  induction l with
  | nil => simp [insertVideo]
  | cons w ws ih =>
    rw [List.pairwise_cons] at h
    unfold insertVideo
    split_ifs with hle
    · rw [List.pairwise_cons]
      refine ⟨?_, ih h.2⟩
      intro b hb
      rcases List.mem_cons.mp ((insertVideo_perm v ws).mem_iff.mp hb) with rfl | hb'
      · exact hle
      · exact h.1 b hb'
    · rw [List.pairwise_cons]
      have hvw : v.part ≤ w.part := le_of_not_le hle
      refine ⟨?_, List.pairwise_cons.mpr h⟩
      intro b hb
      rcases List.mem_cons.mp hb with rfl | hb'
      · exact hvw
      · exact le_trans hvw (h.1 b hb')

/-- The insertion fold yields a part-sorted list. -/
lemma foldl_insert_pairwise (l : List VideoEntry) :
    ∀ acc, acc.Pairwise (fun a b => a.part ≤ b.part) →
      (l.foldl (fun a v => insertVideo v a) acc).Pairwise (fun a b => a.part ≤ b.part) := by
  induction l with
  | nil => intro acc h; simpa using h
  | cons v vs ih =>
    intro acc h
    simp only [List.foldl_cons]
    exact ih _ (pairwise_insertVideo h)

/-- `sortVideos` yields a part-sorted list. -/
lemma sortVideos_pairwise (l : List VideoEntry) :
    (sortVideos l).Pairwise (fun a b => a.part ≤ b.part) :=
  foldl_insert_pairwise l [] (by simp)

/-- Updating a part in place never changes the stems. -/
lemma updateFirstVideo_map_stem (vs : String) (p : Int) (l : List VideoEntry) :
    (updateFirstVideo vs p l).map VideoEntry.video_stem = l.map VideoEntry.video_stem := by
  induction l with
  | nil => rfl
  | cons w ws ih =>
    unfold updateFirstVideo
    split_ifs with h <;> simp [ih]

/-- Sorting does not affect duplicate-freedom of the stems. -/
lemma nodup_stem_sortVideos {l : List VideoEntry} :
    ((sortVideos l).map VideoEntry.video_stem).Nodup ↔
    (l.map VideoEntry.video_stem).Nodup :=
  ((sortVideos_perm l).map VideoEntry.video_stem).nodup_iff

/-- The per-group invariant: videos sorted ascending by part, stems
without duplicates. -/
def GroupInv (g : MatchGroup) : Prop :=
  g.videos.Pairwise (fun a b => a.part ≤ b.part) ∧
  (g.videos.map VideoEntry.video_stem).Nodup

/-- The store invariant: every group satisfies `GroupInv`. -/
def StoreInv (s : MatchStore) : Prop := ∀ q ∈ s, GroupInv q.2

/-- The videos computed by `saveGroupStep`, split out of the record. -/
lemma saveGroupStep_videos (vs : String) (p : Int) (r b : String) (g : MatchGroup) :
    (saveGroupStep vs p r b g).videos =
      sortVideos (if g.videos.any (fun w => w.video_stem == vs) then
        updateFirstVideo vs p g.videos else g.videos ++ [⟨vs, p⟩]) := by
  simp only [saveGroupStep]
  split_ifs <;> rfl

/-- `saveGroupStep` only changes `red_name` when a non-empty name is
supplied. -/
lemma saveGroupStep_red (vs : String) (p : Int) (r b : String) (g : MatchGroup) :
    (saveGroupStep vs p r b g).red_name = if r = "" then g.red_name else r := by
  unfold saveGroupStep
  split_ifs <;> simp_all

/-- `saveGroupStep` only changes `blue_name` when a non-empty name is
supplied. -/
lemma saveGroupStep_blue (vs : String) (p : Int) (r b : String) (g : MatchGroup) :
    (saveGroupStep vs p r b g).blue_name = if b = "" then g.blue_name else b := by
  unfold saveGroupStep
  split_ifs <;> simp_all

/-- `saveGroupStep` preserves the per-group invariant. -/
lemma groupInv_saveGroupStep (vs : String) (p : Int) (r b : String)
    {g : MatchGroup} (h : GroupInv g) : GroupInv (saveGroupStep vs p r b g) := by
  constructor
  · rw [saveGroupStep_videos]
    exact sortVideos_pairwise _
  · rw [saveGroupStep_videos, nodup_stem_sortVideos]
    split_ifs with hc
    · rw [updateFirstVideo_map_stem]
      exact h.2
    · rw [List.map_append]
      simp only [List.map_cons, List.map_nil]
      rw [List.nodup_append]
      refine ⟨h.2, List.nodup_singleton _, ?_⟩
      intro x hx hx'
      rcases List.mem_map.mp hx with ⟨w, hw, rfl⟩
      have hws : w.video_stem = vs := List.mem_singleton.mp hx'
      exact hc (List.any_eq_true.mpr ⟨w, hw, by simp [hws]⟩)

/-- `updateGroup` preserves the store invariant when `f` preserves the
group invariant. -/
lemma storeInv_updateGroup {n : String} {f : MatchGroup → MatchGroup}
    (hf : ∀ g, GroupInv g → GroupInv (f g)) :
    ∀ s, StoreInv s → StoreInv (updateGroup n f s) := by
  intro s
  induction s with
  | nil => intro h; simpa [updateGroup] using h
  | cons q t ih =>
    intro h
    obtain ⟨m, g⟩ := q
    have hg : GroupInv g := h (m, g) (List.mem_cons_self _ _)
    have ht : StoreInv t := fun q hq => h q (List.mem_cons_of_mem _ hq)
    unfold updateGroup
    split_ifs with hmn
    · intro q hq
      rcases List.mem_cons.mp hq with rfl | hq'
      · exact hf g hg
      · exact ht q hq'
    · intro q hq
      rcases List.mem_cons.mp hq with rfl | hq'
      · exact hg
      · exact ih ht q hq'

/-- Appending a fresh invariant-satisfying group preserves the store
invariant. -/
lemma storeInv_append {s : MatchStore} (h : StoreInv s) {n : String}
    {g : MatchGroup} (hg : GroupInv g) : StoreInv (s ++ [(n, g)]) := by
  intro q hq
  rcases List.mem_append.mp hq with hq' | hq'
  · exact h q hq'
  · rcases List.mem_singleton.mp hq' with rfl
    exact hg

/-- One `save_match_group` call preserves the store invariant. -/
lemma storeInv_saveMatchGroup (n v : String) (p : Int) (r b : String)
    {s : MatchStore} (h : StoreInv s) : StoreInv (saveMatchGroup n v p r b s) := by
  unfold saveMatchGroup
  split_ifs with hl
  · exact storeInv_updateGroup (fun g hg => groupInv_saveGroupStep v p r b hg) s h
  · exact storeInv_updateGroup (fun g hg => groupInv_saveGroupStep v p r b hg) _
      (storeInv_append h ⟨List.Pairwise.nil, List.nodup_nil⟩)

/-- Every reachable match store satisfies the store invariant. -/
lemma storeInv_of_reachable {s : MatchStore} (h : ReachableMatches s) : StoreInv s := by
  induction h with
  | empty => intro q hq; cases hq
  | step n v p r b hs ih => exact storeInv_saveMatchGroup n v p r b ih

/-! ## Claim C4 — per-group ordering and uniqueness -/

/-- A concrete reachable store: one group `"A"` with two parts. -/
def sampleStore : MatchStore :=
  saveMatchGroup "A" "v2" 2 "" "" (saveMatchGroup "A" "v1" 1 "R" "B" [])

/-- `sampleStore` is reachable. -/
lemma sampleStore_reachable : ReachableMatches sampleStore :=
  .step _ _ _ _ _ (.step _ _ _ _ _ .empty)

/-- C4: in every store reachable by `save_match_group` calls from the
empty store, every group's video list is sorted ascending by `part` and
contains no two entries with the same `video_stem`. -/
theorem match_group_sorted_nodup {s : MatchStore} (h : ReachableMatches s)
    (n : String) (g : MatchGroup) (hg : (n, g) ∈ s) :
    g.videos.Pairwise (fun a b => a.part ≤ b.part) ∧
    (g.videos.map VideoEntry.video_stem).Nodup :=
  storeInv_of_reachable h (n, g) hg

/-- Witness for C4 on the concrete reachable store `sampleStore`. -/
theorem match_group_sorted_nodup_witness :
    (("A", (⟨"R", "B", [⟨"v1", 1⟩, ⟨"v2", 2⟩]⟩ : MatchGroup)) ∈ sampleStore) ∧
    ((⟨"R", "B", [⟨"v1", 1⟩, ⟨"v2", 2⟩]⟩ : MatchGroup).videos.Pairwise
      (fun a b => a.part ≤ b.part) ∧
     ((⟨"R", "B", [⟨"v1", 1⟩, ⟨"v2", 2⟩]⟩ : MatchGroup).videos.map
      VideoEntry.video_stem).Nodup) :=
  ⟨by decide, match_group_sorted_nodup sampleStore_reachable "A" _ (by decide)⟩

/-! ## Claim C3 — a video may belong to several groups -/

/-- A reachable store in which `"v1"` was saved into group `"A"` and
then into group `"B"`. -/
def dupStore : MatchStore :=
  saveMatchGroup "B" "v1" 1 "" "" (saveMatchGroup "A" "v1" 1 "" "" [])

/-- `dupStore` is reachable. -/
lemma dupStore_reachable : ReachableMatches dupStore :=
  .step _ _ _ _ _ (.step _ _ _ _ _ .empty)

/-- Counterexample to C3 as stated: after saving `"v1"` into group
`"A"` and then into group `"B"`, the reachable store has two groups
whose video lists contain `"v1"` — reassignment copies rather than
moves. -/
theorem video_in_two_groups_counterexample :
    ReachableMatches dupStore ∧
    dupStore.countP (fun q => q.2.videos.any (fun w => w.video_stem == "v1")) = 2 :=
  ⟨dupStore_reachable, by decide⟩

/-- C3 amended: in every reachable store a `video_stem` appears at most
once within any single group's video list; reassigning a video to
another group adds it there without removing it from the old group, so
it can appear in several groups. -/
theorem video_unique_within_group {s : MatchStore} (h : ReachableMatches s)
    (n : String) (g : MatchGroup) (hg : (n, g) ∈ s) (st : String) :
    (g.videos.map VideoEntry.video_stem).count st ≤ 1 :=
  List.nodup_iff_count_le_one.mp (storeInv_of_reachable h (n, g) hg).2 st

/-- Witness for C3 amended on the concrete store `dupStore`. -/
theorem video_unique_within_group_witness :
    (("A", (⟨"", "", [⟨"v1", 1⟩]⟩ : MatchGroup)) ∈ dupStore) ∧
    (((⟨"", "", [⟨"v1", 1⟩]⟩ : MatchGroup).videos.map
      VideoEntry.video_stem).count "v1" ≤ 1) :=
  ⟨by decide, video_unique_within_group dupStore_reachable "A" _ (by decide) "v1"⟩

/-! ## Claim C8 — empty names never clobber stored names -/

/-- Unfolding `lookupGroup` over a cons cell. -/
lemma lookupGroup_cons (m : String) (g : MatchGroup) (n : String) (t : MatchStore) :
    lookupGroup n ((m, g) :: t) = if m == n then some g else lookupGroup n t := by
  by_cases h : m == n <;> simp [lookupGroup, findFirst, h]

/-- Looking up the updated key yields the updated group. -/
lemma lookupGroup_updateGroup_self (n : String) (f : MatchGroup → MatchGroup) :
    ∀ s : MatchStore, lookupGroup n (updateGroup n f s) = (lookupGroup n s).map f := by
  intro s
  induction s with
  | nil => rfl
  | cons q t ih =>
    obtain ⟨m, g⟩ := q
    unfold updateGroup
    split_ifs with hmn
    · rw [lookupGroup_cons, lookupGroup_cons, if_pos hmn, if_pos hmn]
      rfl
    · rw [lookupGroup_cons, lookupGroup_cons, if_neg hmn, if_neg hmn]
      exact ih

/-- Looking up any other key is unaffected by the update. -/
lemma lookupGroup_updateGroup_other {m n : String} (hmn : m ≠ n)
    (f : MatchGroup → MatchGroup) :
    ∀ s : MatchStore, lookupGroup m (updateGroup n f s) = lookupGroup m s := by
  intro s
  induction s with
  | nil => rfl
  | cons q t ih =>
    obtain ⟨k, g⟩ := q
    unfold updateGroup
    split_ifs with hkn
    · have hkm : (k == m) = false := by
        have : k = n := by simpa using hkn
        subst this
        simpa using fun hc => hmn hc.symm
      rw [lookupGroup_cons, lookupGroup_cons, hkm]
      simp
    · rw [lookupGroup_cons, lookupGroup_cons]
      by_cases hkm : k == m
      · simp [hkm]
      · simp only [hkm, Bool.false_eq_true, if_false]
        exact ih

/-- C8: `save_match_group` applied to an existing group replaces a
stored fighter name only when the corresponding argument is non-empty
(an empty string keeps the stored name), and every other group in the
store is left unchanged. -/
theorem save_match_group_name_preservation (s : MatchStore) (n v : String)
    (p : Int) (r b : String) (g : MatchGroup)
    (hg : lookupGroup n s = some g) (m : String) (hm : m ≠ n) :
    lookupGroup n (saveMatchGroup n v p r b s) = some (saveGroupStep v p r b g) ∧
    (saveGroupStep v p r b g).red_name = (if r = "" then g.red_name else r) ∧
    (saveGroupStep v p r b g).blue_name = (if b = "" then g.blue_name else b) ∧
    lookupGroup m (saveMatchGroup n v p r b s) = lookupGroup m s := by
  have hsome : (lookupGroup n s).isSome = true := by rw [hg]; rfl
  unfold saveMatchGroup
  rw [if_pos hsome]
  refine ⟨?_, saveGroupStep_red v p r b g, saveGroupStep_blue v p r b g, ?_⟩
  · rw [lookupGroup_updateGroup_self, hg]
    rfl
  · rw [lookupGroup_updateGroup_other hm]

/-- Witness for C8: overwriting group `"A"` with an empty red name and
a non-empty blue name keeps the stored red name. -/
theorem save_match_group_name_preservation_witness :
    (lookupGroup "A" [("A", (⟨"R", "B", []⟩ : MatchGroup))] = some ⟨"R", "B", []⟩ ∧
     "C" ≠ "A") ∧
    (lookupGroup "A" (saveMatchGroup "A" "v" 1 "" "NewB"
        [("A", (⟨"R", "B", []⟩ : MatchGroup))]) =
      some (saveGroupStep "v" 1 "" "NewB" ⟨"R", "B", []⟩) ∧
     (saveGroupStep "v" 1 "" "NewB" (⟨"R", "B", []⟩ : MatchGroup)).red_name =
      (if "" = "" then "R" else "") ∧
     (saveGroupStep "v" 1 "" "NewB" (⟨"R", "B", []⟩ : MatchGroup)).blue_name =
      (if "NewB" = "" then "B" else "NewB") ∧
     lookupGroup "C" (saveMatchGroup "A" "v" 1 "" "NewB"
        [("A", (⟨"R", "B", []⟩ : MatchGroup))]) =
      lookupGroup "C" [("A", (⟨"R", "B", []⟩ : MatchGroup))]) :=
  ⟨⟨by decide, by decide⟩,
    save_match_group_name_preservation [("A", ⟨"R", "B", []⟩)] "A" "v" 1 "" "NewB"
      ⟨"R", "B", []⟩ (by decide) "C" (by decide)⟩

/-! ## List lemmas for the annotation store (C1, C7, C10) -/

/-- Unfolding equation for `countMatch` over a cons cell. -/
lemma countMatch_cons {α : Type} (p : α → Bool) (a : α) (t : List α) :
    countMatch p (a :: t) = (if p a then 1 else 0) + countMatch p t := rfl

/-- No found index means no matching element. -/
lemma findIdxOpt_none_countMatch {α : Type} {p : α → Bool} :
    ∀ {l : List α}, findIdxOpt p l = none → countMatch p l = 0 := by
  intro l
  induction l with
  | nil => intro _; rfl
  | cons a t ih =>
    intro h
    unfold findIdxOpt at h
    by_cases ha : p a
    · rw [if_pos ha] at h
      cases h
    · rw [if_neg ha] at h
      have ht : findIdxOpt p t = none := by
        cases hx : findIdxOpt p t with
        | none => rfl
        | some j => rw [hx] at h; simp at h
      rw [countMatch_cons, if_neg ha, ih ht]

/-- A found index means at least one matching element. -/
lemma findIdxOpt_some_countMatch {α : Type} {p : α → Bool} :
    ∀ {l : List α} {i : Nat}, findIdxOpt p l = some i → 1 ≤ countMatch p l := by
  intro l
  induction l with
  | nil => intro i h; cases h
  | cons a t ih =>
    intro i h
    unfold findIdxOpt at h
    rw [countMatch_cons]
    by_cases ha : p a
    · rw [if_pos ha]
      omega
    · rw [if_neg ha] at h
      rw [if_neg ha]
      cases hx : findIdxOpt p t with
      | none => rw [hx] at h; cases h
      | some j => simpa using ih hx

/-- A found index is within bounds. -/
lemma findIdxOpt_lt_length {α : Type} {p : α → Bool} :
    ∀ {l : List α} {i : Nat}, findIdxOpt p l = some i → i < l.length := by
  intro l
  induction l with
  | nil => intro i h; cases h
  | cons a t ih =>
    intro i h
    unfold findIdxOpt at h
    by_cases ha : p a
    · rw [if_pos ha] at h
      cases h
      simp
    · rw [if_neg ha] at h
      cases hx : findIdxOpt p t with
      | none => rw [hx] at h; cases h
      | some j =>
        rw [hx] at h
        cases h
        have := ih hx
        simp only [List.length_cons]
        omega

/-- Everything before a found index fails the test; replacing the found
element with another matching one keeps the index. -/
lemma findIdxOpt_setAt_same {α : Type} {p : α → Bool} {b : α} (hb : p b = true) :
    ∀ {l : List α} {i : Nat}, findIdxOpt p l = some i →
      findIdxOpt p (setAt l i b) = some i := by
  intro l
  induction l with
  | nil => intro i h; cases h
  | cons a t ih =>
    intro i h
    unfold findIdxOpt at h
    by_cases ha : p a
    · rw [if_pos ha] at h
      cases h
      show findIdxOpt p (b :: t) = some 0
      unfold findIdxOpt
      rw [if_pos hb]
    · rw [if_neg ha] at h
      cases hx : findIdxOpt p t with
      | none => rw [hx] at h; cases h
      | some j =>
        rw [hx] at h
        cases h
        show findIdxOpt p (a :: setAt t j b) = some (j + 1)
        unfold findIdxOpt
        rw [if_neg ha, ih hx]
        rfl

/-- Replacing a found (hence matching) element by a matching one keeps
the number of matches. -/
lemma countMatch_setAt {α : Type} {p : α → Bool} {b : α} (hb : p b = true) :
    ∀ {l : List α} {i : Nat}, findIdxOpt p l = some i →
      countMatch p (setAt l i b) = countMatch p l := by
  intro l
  induction l with
  | nil => intro i h; cases h
  | cons a t ih =>
    intro i h
    unfold findIdxOpt at h
    by_cases ha : p a
    · rw [if_pos ha] at h
      cases h
      show countMatch p (b :: t) = countMatch p (a :: t)
      rw [countMatch_cons, countMatch_cons, if_pos ha, if_pos hb]
    · rw [if_neg ha] at h
      cases hx : findIdxOpt p t with
      | none => rw [hx] at h; cases h
      | some j =>
        rw [hx] at h
        cases h
        show countMatch p (a :: setAt t j b) = countMatch p (a :: t)
        rw [countMatch_cons, countMatch_cons, ih hx]

/-- Reading back the element just written. -/
lemma getOpt_setAt {α : Type} {b : α} :
    ∀ {l : List α} {i : Nat}, i < l.length → getOpt (setAt l i b) i = some b := by
  intro l
  induction l with
  | nil => intro i h; cases h
  | cons a t ih =>
    intro i h
    cases i with
    | zero => rfl
    | succ j =>
      show getOpt (setAt t j b) j = some b
      exact ih (by simpa using Nat.lt_of_succ_lt_succ h)

/-- Matches split over list append. -/
lemma countMatch_append {α : Type} (p : α → Bool) :
    ∀ l l' : List α, countMatch p (l ++ l') = countMatch p l + countMatch p l' := by
  intro l l'
  induction l with
  | nil => simp [countMatch]
  | cons a t ih =>
    simp only [List.cons_append]
    rw [countMatch_cons, countMatch_cons, ih]
    omega

/-- Appending a matching element to a match-free list puts the first
match at the old length. -/
lemma findIdxOpt_append_none {α : Type} {p : α → Bool} {b : α} (hb : p b = true) :
    ∀ {l : List α}, findIdxOpt p l = none →
      findIdxOpt p (l ++ [b]) = some l.length := by
  intro l
  induction l with
  | nil =>
    intro _
    show findIdxOpt p [b] = some 0
    unfold findIdxOpt
    rw [if_pos hb]
  | cons a t ih =>
    intro h
    unfold findIdxOpt at h
    by_cases ha : p a
    · rw [if_pos ha] at h
      cases h
    · rw [if_neg ha] at h
      have ht : findIdxOpt p t = none := by
        cases hx : findIdxOpt p t with
        | none => rfl
        | some j => rw [hx] at h; simp at h
      show findIdxOpt p (a :: (t ++ [b])) = some (t.length + 1)
      unfold findIdxOpt
      rw [if_neg ha, ih ht]
      rfl

/-- Reading back the appended element. -/
lemma getOpt_append_length {α : Type} (b : α) :
    ∀ l : List α, getOpt (l ++ [b]) l.length = some b := by
  intro l
  induction l with
  | nil => rfl
  | cons a t ih => simpa using ih

/-- The first match after replacing the found element is the
replacement. -/
lemma findFirst_setAt {α : Type} {p : α → Bool} {b : α} (hb : p b = true) :
    ∀ {l : List α} {i : Nat}, findIdxOpt p l = some i →
      findFirst p (setAt l i b) = some b := by
  intro l
  induction l with
  | nil => intro i h; cases h
  | cons a t ih =>
    intro i h
    unfold findIdxOpt at h
    by_cases ha : p a
    · rw [if_pos ha] at h
      cases h
      show findFirst p (b :: t) = some b
      unfold findFirst
      rw [if_pos hb]
    · rw [if_neg ha] at h
      cases hx : findIdxOpt p t with
      | none => rw [hx] at h; cases h
      | some j =>
        rw [hx] at h
        cases h
        show findFirst p (a :: setAt t j b) = some b
        unfold findFirst
        rw [if_neg ha, ih hx]

/-- The first match after appending to a match-free list is the
appended element. -/
lemma findFirst_append_none {α : Type} {p : α → Bool} {b : α} (hb : p b = true) :
    ∀ {l : List α}, findIdxOpt p l = none → findFirst p (l ++ [b]) = some b := by
  intro l
  induction l with
  | nil =>
    intro _
    show findFirst p [b] = some b
    unfold findFirst
    rw [if_pos hb]
  | cons a t ih =>
    intro h
    unfold findIdxOpt at h
    by_cases ha : p a
    · rw [if_pos ha] at h
      cases h
    · rw [if_neg ha] at h
      have ht : findIdxOpt p t = none := by
        cases hx : findIdxOpt p t with
        | none => rfl
        | some j => rw [hx] at h; simp at h
      show findFirst p (a :: (t ++ [b])) = some b
      unfold findFirst
      rw [if_neg ha, ih ht]

/-- A match-free list is unchanged by the delete filter. -/
lemma filter_eq_self_of_countMatch_zero {α : Type} {p : α → Bool} :
    ∀ {l : List α}, countMatch p l = 0 → l.filter (fun a => !(p a)) = l := by
  intro l
  induction l with
  | nil => intro _; rfl
  | cons a t ih =>
    intro h
    rw [countMatch_cons] at h
    by_cases ha : p a
    · rw [if_pos ha] at h
      omega
    · rw [if_neg ha] at h
      rw [List.filter_cons_of_pos (by simp [ha]), ih (by omega)]

/-- The delete filter removes exactly the matching elements. -/
lemma length_filter_add_countMatch {α : Type} (p : α → Bool) :
    ∀ l : List α, (l.filter (fun a => !(p a))).length + countMatch p l = l.length := by
  intro l
  induction l with
  | nil => rfl
  | cons a t ih =>
    rw [countMatch_cons]
    by_cases ha : p a
    · rw [List.filter_cons_of_neg (by simp [ha]), if_pos ha]
      simp only [List.length_cons]
      omega
    · rw [List.filter_cons_of_pos (by simp [ha]), if_neg ha]
      simp only [List.length_cons]
      omega

/-- Nothing matching survives the delete filter. -/
lemma countMatch_filter_not {α : Type} (p : α → Bool) :
    ∀ l : List α, countMatch p (l.filter (fun a => !(p a))) = 0 := by
  intro l
  induction l with
  | nil => rfl
  | cons a t ih =>
    by_cases ha : p a
    · rw [List.filter_cons_of_neg (by simp [ha])]
      exact ih
    · rw [List.filter_cons_of_pos (by simp [ha]), countMatch_cons, if_neg ha, ih]

/-! ## Unfolding `addAnnotationRecord` -/

/-- The freshly built record carries the identity key of the call. -/
lemma keyMatches_buildAnn (v : String) (e : Event) (c : Corrections)
    (ab now : String) (ex : Bool) :
    keyMatches (e.start_frame.getD 0) (e.end_frame.getD 0)
      (c.fighter_color.getD (e.fighter_color.getD "unknown"))
      (buildAnn v e c ab now ex) = true := by
  simp [keyMatches, buildAnn]

/-- Overwriting the identifier does not change the identity key. -/
lemma keyMatches_set_id (sf ef : Int) (fc : String) (a : Ann) (x : String) :
    keyMatches sf ef fc { a with annotation_id := x } = keyMatches sf ef fc a := rfl

/-- `add_annotation` when an annotation with the key already exists:
the record at the found index is overwritten and its identifier is
carried over. -/
lemma addAnnotation_of_found {v : String} {e : Event} {c : Corrections}
    {ab now fresh : String} {anns : List Ann} {i : Nat}
    (h : findIdxOpt (keyMatches (e.start_frame.getD 0) (e.end_frame.getD 0)
      (c.fighter_color.getD (e.fighter_color.getD "unknown"))) anns = some i) :
    addAnnotationRecord v e c ab now fresh anns =
      (((getOpt anns i).map Ann.annotation_id).getD "",
       setAt anns i { buildAnn v e c ab now true with
         annotation_id := ((getOpt anns i).map Ann.annotation_id).getD "" }) := by
  simp only [addAnnotationRecord, h]
  rfl

/-- `add_annotation` when no annotation with the key exists: a record
with a fresh identifier is appended. -/
lemma addAnnotation_of_notfound {v : String} {e : Event} {c : Corrections}
    {ab now fresh : String} {anns : List Ann}
    (h : findIdxOpt (keyMatches (e.start_frame.getD 0) (e.end_frame.getD 0)
      (c.fighter_color.getD (e.fighter_color.getD "unknown"))) anns = none) :
    addAnnotationRecord v e c ab now fresh anns =
      (freshAnnotationId v (c.fighter_color.getD (e.fighter_color.getD "unknown"))
        (e.start_frame.getD 0) (e.end_frame.getD 0) fresh,
       anns ++ [{ buildAnn v e c ab now false with
         annotation_id := freshAnnotationId v
           (c.fighter_color.getD (e.fighter_color.getD "unknown"))
           (e.start_frame.getD 0) (e.end_frame.getD 0) fresh }]) := by
  simp only [addAnnotationRecord, h]
  rfl

/-! ## Claim C1 — idempotent upsert -/

/-- C1: calling `add_annotation` twice with the same identity key (from
the same event and corrections) on a store holding at most one record
with that key returns the same `annotation_id` both times and leaves
exactly one stored record with that key. -/
theorem add_annotation_idempotent (v : String) (e : Event) (c : Corrections)
    (ab1 ab2 now1 now2 f1 f2 : String) (anns : List Ann)
    (h : countMatch (keyMatches (e.start_frame.getD 0) (e.end_frame.getD 0)
          (c.fighter_color.getD (e.fighter_color.getD "unknown"))) anns ≤ 1) :
    (addAnnotationRecord v e c ab2 now2 f2 (addAnnotationRecord v e c ab1 now1 f1 anns).2).1 =
      (addAnnotationRecord v e c ab1 now1 f1 anns).1 ∧
    countMatch (keyMatches (e.start_frame.getD 0) (e.end_frame.getD 0)
        (c.fighter_color.getD (e.fighter_color.getD "unknown")))
      (addAnnotationRecord v e c ab2 now2 f2 (addAnnotationRecord v e c ab1 now1 f1 anns).2).2
      = 1 := by
  cases hi : findIdxOpt (keyMatches (e.start_frame.getD 0) (e.end_frame.getD 0)
      (c.fighter_color.getD (e.fighter_color.getD "unknown"))) anns with
  | none =>
    have hpa1 : keyMatches (e.start_frame.getD 0) (e.end_frame.getD 0)
        (c.fighter_color.getD (e.fighter_color.getD "unknown"))
        { buildAnn v e c ab1 now1 false with
          annotation_id := freshAnnotationId v
            (c.fighter_color.getD (e.fighter_color.getD "unknown"))
            (e.start_frame.getD 0) (e.end_frame.getD 0) f1 } = true := by
      rw [keyMatches_set_id]
      exact keyMatches_buildAnn v e c ab1 now1 false
    have h2 := findIdxOpt_append_none hpa1 hi
    have hpa2 : keyMatches (e.start_frame.getD 0) (e.end_frame.getD 0)
        (c.fighter_color.getD (e.fighter_color.getD "unknown"))
        { buildAnn v e c ab2 now2 true with
          annotation_id := ((getOpt (anns ++ [{ buildAnn v e c ab1 now1 false with
            annotation_id := freshAnnotationId v
              (c.fighter_color.getD (e.fighter_color.getD "unknown"))
              (e.start_frame.getD 0) (e.end_frame.getD 0) f1 }]) anns.length).map
            Ann.annotation_id).getD "" } = true := by
      rw [keyMatches_set_id]
      exact keyMatches_buildAnn v e c ab2 now2 true
    constructor
    · rw [addAnnotation_of_notfound hi, addAnnotation_of_found h2,
        getOpt_append_length]
      rfl
    · rw [addAnnotation_of_notfound hi, addAnnotation_of_found h2,
        countMatch_setAt hpa2 h2, countMatch_append,
        findIdxOpt_none_countMatch hi, countMatch_cons, if_pos hpa1]
      rfl
  | some i =>
    have hpa1 : keyMatches (e.start_frame.getD 0) (e.end_frame.getD 0)
        (c.fighter_color.getD (e.fighter_color.getD "unknown"))
        { buildAnn v e c ab1 now1 true with
          annotation_id := ((getOpt anns i).map Ann.annotation_id).getD "" } = true := by
      rw [keyMatches_set_id]
      exact keyMatches_buildAnn v e c ab1 now1 true
    have h2 := findIdxOpt_setAt_same hpa1 hi
    have hlt := findIdxOpt_lt_length hi
    have hget : getOpt (setAt anns i { buildAnn v e c ab1 now1 true with
        annotation_id := ((getOpt anns i).map Ann.annotation_id).getD "" }) i =
        some { buildAnn v e c ab1 now1 true with
          annotation_id := ((getOpt anns i).map Ann.annotation_id).getD "" } :=
      getOpt_setAt hlt
    have hpa2 : keyMatches (e.start_frame.getD 0) (e.end_frame.getD 0)
        (c.fighter_color.getD (e.fighter_color.getD "unknown"))
        { buildAnn v e c ab2 now2 true with
          annotation_id := ((getOpt (setAt anns i
            { buildAnn v e c ab1 now1 true with
              annotation_id := ((getOpt anns i).map Ann.annotation_id).getD "" }) i).map
            Ann.annotation_id).getD "" } = true := by
      rw [keyMatches_set_id]
      exact keyMatches_buildAnn v e c ab2 now2 true
    have hone : countMatch (keyMatches (e.start_frame.getD 0) (e.end_frame.getD 0)
        (c.fighter_color.getD (e.fighter_color.getD "unknown"))) anns = 1 :=
      le_antisymm h (findIdxOpt_some_countMatch hi)
    constructor
    · rw [addAnnotation_of_found hi, addAnnotation_of_found h2, hget]
      rfl
    · rw [addAnnotation_of_found hi, addAnnotation_of_found h2,
        countMatch_setAt hpa2 h2, countMatch_setAt hpa1 hi, hone]

/-- Witness for C1: two upserts of the sample event on the empty store. -/
theorem add_annotation_idempotent_witness :
    (countMatch (keyMatches (sampleEvent.start_frame.getD 0)
        (sampleEvent.end_frame.getD 0)
        (emptyCorrections.fighter_color.getD
          (sampleEvent.fighter_color.getD "unknown"))) [] ≤ 1) ∧
    ((addAnnotationRecord "match01" sampleEvent emptyCorrections "A" "t2" "u2"
        (addAnnotationRecord "match01" sampleEvent emptyCorrections "A" "t1" "u1" []).2).1 =
      (addAnnotationRecord "match01" sampleEvent emptyCorrections "A" "t1" "u1" []).1 ∧
     countMatch (keyMatches (sampleEvent.start_frame.getD 0)
        (sampleEvent.end_frame.getD 0)
        (emptyCorrections.fighter_color.getD
          (sampleEvent.fighter_color.getD "unknown")))
      (addAnnotationRecord "match01" sampleEvent emptyCorrections "A" "t2" "u2"
        (addAnnotationRecord "match01" sampleEvent emptyCorrections "A" "t1" "u1" []).2).2
      = 1) :=
  ⟨by decide, add_annotation_idempotent "match01" sampleEvent emptyCorrections
    "A" "A" "t1" "t2" "u1" "u2" [] (by decide)⟩

/-! ## The at-most-one-record-per-key invariant

The hypotheses of C1 and C7 assume at most one stored record per
identity key; this section shows that every store the code itself can
produce (any sequence of `add_annotation` / `delete_annotation` calls
from the empty store) satisfies that invariant. -/

/-- A record matches a key exactly when its own fields are that key. -/
lemma keyMatches_iff {sf ef : Int} {fc : String} {a : Ann} :
    keyMatches sf ef fc a = true ↔
    a.start_frame = sf ∧ a.end_frame = ef ∧ a.fighter_color = fc := by
  simp [keyMatches, and_assoc]

/-- Two keys matched by the same record agree on every record. -/
lemma keyMatches_agree {sf ef : Int} {fc : String} {sf' ef' : Int} {fc' : String}
    {b : Ann} (h1 : keyMatches sf ef fc b = true)
    (h2 : keyMatches sf' ef' fc' b = true) (x : Ann) :
    keyMatches sf ef fc x = keyMatches sf' ef' fc' x := by
  obtain ⟨a1, a2, a3⟩ := keyMatches_iff.mp h1
  obtain ⟨b1, b2, b3⟩ := keyMatches_iff.mp h2
  subst a1 a2 a3 b1 b2 b3
  rfl

/-- Replacing any element by a non-matching one cannot add matches. -/
lemma countMatch_setAt_le {α : Type} {p : α → Bool} {b : α} (hb : p b = false) :
    ∀ (l : List α) (i : Nat), countMatch p (setAt l i b) ≤ countMatch p l := by
  intro l
  induction l with
  | nil => intro i; exact le_refl _
  | cons a t ih =>
    intro i
    cases i with
    | zero =>
      show countMatch p (b :: t) ≤ countMatch p (a :: t)
      rw [countMatch_cons, countMatch_cons, if_neg (by simp [hb])]
      omega
    | succ j =>
      show countMatch p (a :: setAt t j b) ≤ countMatch p (a :: t)
      rw [countMatch_cons, countMatch_cons]
      have := ih j
      omega

/-- Filtering cannot add matches. -/
lemma countMatch_filter_le {α : Type} (p q : α → Bool) :
    ∀ l : List α, countMatch p (l.filter q) ≤ countMatch p l := by
  intro l
  induction l with
  | nil => exact le_refl _
  | cons a t ih =>
    by_cases hq : q a
    · rw [List.filter_cons_of_pos hq, countMatch_cons, countMatch_cons]
      omega
    · rw [List.filter_cons_of_neg (by simp [hq]), countMatch_cons]
      have : (0 : Nat) ≤ if p a then 1 else 0 := Nat.zero_le _
      omega

/-- At most one stored record per identity key. -/
def AnnKeyInv (s : List Ann) : Prop :=
  ∀ (sf ef : Int) (fc : String), countMatch (keyMatches sf ef fc) s ≤ 1

/-- Annotation stores the code can produce: any sequence of
`add_annotation` and `delete_annotation` calls from the empty store. -/
inductive ReachableAnns : List Ann → Prop
  | empty : ReachableAnns []
  | upsert (v : String) (e : Event) (c : Corrections) (ab now fresh : String)
      {s : List Ann} : ReachableAnns s →
      ReachableAnns (addAnnotationRecord v e c ab now fresh s).2
  | delete (sf ef : Int) (fc : String) {s : List Ann} : ReachableAnns s →
      ReachableAnns (deleteAnnotationRecord sf ef fc s).2

/-- `delete_annotation` cannot add matches. -/
lemma countMatch_delete_le (sf ef : Int) (fc : String) (s : List Ann)
    (p : Ann → Bool) :
    countMatch p (deleteAnnotationRecord sf ef fc s).2 ≤ countMatch p s := by
  simp only [deleteAnnotationRecord]
  split_ifs
  · exact countMatch_filter_le p _ s
  · exact le_refl _

/-- One upsert preserves the at-most-one-per-key invariant. -/
lemma annKeyInv_upsert (v : String) (e : Event) (c : Corrections)
    (ab now fresh : String) {s : List Ann} (h : AnnKeyInv s) :
    AnnKeyInv (addAnnotationRecord v e c ab now fresh s).2 := by
  intro sf ef fc
  cases hi : findIdxOpt (keyMatches (e.start_frame.getD 0) (e.end_frame.getD 0)
      (c.fighter_color.getD (e.fighter_color.getD "unknown"))) s with
  | some i =>
    have hpa1 : keyMatches (e.start_frame.getD 0) (e.end_frame.getD 0)
        (c.fighter_color.getD (e.fighter_color.getD "unknown"))
        { buildAnn v e c ab now true with
          annotation_id := ((getOpt s i).map Ann.annotation_id).getD "" } = true := by
      rw [keyMatches_set_id]
      exact keyMatches_buildAnn v e c ab now true
    rw [addAnnotation_of_found hi]
    by_cases hb : keyMatches sf ef fc
        { buildAnn v e c ab now true with
          annotation_id := ((getOpt s i).map Ann.annotation_id).getD "" } = true
    · rw [funext (keyMatches_agree hb hpa1), countMatch_setAt hpa1 hi]
      exact h _ _ _
    · exact le_trans
        (countMatch_setAt_le (Bool.not_eq_true _ ▸ eq_false_of_ne_true hb) s i)
        (h sf ef fc)
  | none =>
    have hpa1 : keyMatches (e.start_frame.getD 0) (e.end_frame.getD 0)
        (c.fighter_color.getD (e.fighter_color.getD "unknown"))
        { buildAnn v e c ab now false with
          annotation_id := freshAnnotationId v
            (c.fighter_color.getD (e.fighter_color.getD "unknown"))
            (e.start_frame.getD 0) (e.end_frame.getD 0) fresh } = true := by
      rw [keyMatches_set_id]
      exact keyMatches_buildAnn v e c ab now false
    rw [addAnnotation_of_notfound hi]
    by_cases hb : keyMatches sf ef fc
        { buildAnn v e c ab now false with
          annotation_id := freshAnnotationId v
            (c.fighter_color.getD (e.fighter_color.getD "unknown"))
            (e.start_frame.getD 0) (e.end_frame.getD 0) fresh } = true
    · rw [funext (keyMatches_agree hb hpa1), countMatch_append,
        findIdxOpt_none_countMatch hi, countMatch_cons, if_pos hpa1]
      rfl
    · rw [countMatch_append, countMatch_cons,
        if_neg (by simpa using hb)]
      have := h sf ef fc
      simp only [countMatch]
      omega

/-- Every store the code can produce holds at most one record per
identity key — the hypothesis under which C1 and C7 are proved. -/
lemma annKeyInv_of_reachable {s : List Ann} (h : ReachableAnns s) : AnnKeyInv s := by
  induction h with
  | empty => intro sf ef fc; exact Nat.zero_le _
  | upsert v e c ab now fresh hs ih => exact annKeyInv_upsert v e c ab now fresh ih
  | delete sf ef fc hs ih =>
    intro sf' ef' fc'
    exact le_trans (countMatch_delete_le _ _ _ _ _) (ih sf' ef' fc')

/-! ## Claim C7 — delete by identity key -/

/-- C7: on a store holding at most one record per identity key,
`delete_annotation` returns true and removes exactly the one matching
record when a match exists, keeps every non-matching record, and
returns false leaving the store unchanged when no record matches. -/
theorem delete_annotation_exactly_one (sf ef : Int) (fc : String) (anns : List Ann)
    (h : countMatch (keyMatches sf ef fc) anns ≤ 1) :
    ((deleteAnnotationRecord sf ef fc anns).1 = true ↔
      countMatch (keyMatches sf ef fc) anns = 1) ∧
    (deleteAnnotationRecord sf ef fc anns).2 =
      anns.filter (fun a => !(keyMatches sf ef fc a)) ∧
    anns.length = (deleteAnnotationRecord sf ef fc anns).2.length +
      countMatch (keyMatches sf ef fc) anns ∧
    countMatch (keyMatches sf ef fc) (deleteAnnotationRecord sf ef fc anns).2 = 0 := by
  have hlen := length_filter_add_countMatch (keyMatches sf ef fc) anns
  rcases Nat.le_one_iff_eq_zero_or_eq_one.mp h with h0 | h1
  · have hf := filter_eq_self_of_countMatch_zero h0
    have hnl : ¬((anns.filter (fun a => !(keyMatches sf ef fc a))).length <
        anns.length) := by
      rw [hf]
      exact lt_irrefl _
    simp only [deleteAnnotationRecord]
    rw [if_neg hnl]
    refine ⟨by simp [h0], hf.symm, ?_, h0⟩
    show anns.length = anns.length + countMatch (keyMatches sf ef fc) anns
    rw [h0]
    rfl
  · have hlt : (anns.filter (fun a => !(keyMatches sf ef fc a))).length <
        anns.length := by omega
    simp only [deleteAnnotationRecord]
    rw [if_pos hlt]
    refine ⟨by simp [h1], rfl, ?_, countMatch_filter_not _ _⟩
    show anns.length = (anns.filter (fun a => !(keyMatches sf ef fc a))).length +
      countMatch (keyMatches sf ef fc) anns
    omega

/-- Witness for C7 on the concrete two-record store: deleting key
`(0, 1, "red")` removes exactly `sampleAnn`. -/
theorem delete_annotation_exactly_one_witness :
    (countMatch (keyMatches 0 1 "red") [sampleAnn, sampleAnn2] ≤ 1) ∧
    (((deleteAnnotationRecord 0 1 "red" [sampleAnn, sampleAnn2]).1 = true ↔
       countMatch (keyMatches 0 1 "red") [sampleAnn, sampleAnn2] = 1) ∧
     (deleteAnnotationRecord 0 1 "red" [sampleAnn, sampleAnn2]).2 =
       [sampleAnn, sampleAnn2].filter (fun a => !(keyMatches 0 1 "red" a)) ∧
     ([sampleAnn, sampleAnn2] : List Ann).length =
       (deleteAnnotationRecord 0 1 "red" [sampleAnn, sampleAnn2]).2.length +
       countMatch (keyMatches 0 1 "red") [sampleAnn, sampleAnn2] ∧
     countMatch (keyMatches 0 1 "red")
       (deleteAnnotationRecord 0 1 "red" [sampleAnn, sampleAnn2]).2 = 0) :=
  ⟨by decide, delete_annotation_exactly_one 0 1 "red" [sampleAnn, sampleAnn2]
    (by decide)⟩

/-! ## Claim C10 — every upsert rewrites the record -/

/-- C10: after `add_annotation` the record stored under the identity
key is exactly the freshly built one — `annotator` is `"verified"`
precisely when a record with that key already existed and `"manual"`
otherwise, `created_at` is reset to the current time — and only the
`annotation_id` is carried over from any prior record. -/
theorem add_annotation_rewrites_record (v : String) (e : Event) (c : Corrections)
    (ab now fresh : String) (anns : List Ann) :
    getAnnotationForEvent (e.start_frame.getD 0) (e.end_frame.getD 0)
        (c.fighter_color.getD (e.fighter_color.getD "unknown"))
        (addAnnotationRecord v e c ab now fresh anns).2 =
      some { buildAnn v e c ab now
          (findIdxOpt (keyMatches (e.start_frame.getD 0) (e.end_frame.getD 0)
            (c.fighter_color.getD (e.fighter_color.getD "unknown"))) anns).isSome with
        annotation_id := (addAnnotationRecord v e c ab now fresh anns).1 } ∧
    (buildAnn v e c ab now
        (findIdxOpt (keyMatches (e.start_frame.getD 0) (e.end_frame.getD 0)
          (c.fighter_color.getD (e.fighter_color.getD "unknown"))) anns).isSome).annotator =
      (if (findIdxOpt (keyMatches (e.start_frame.getD 0) (e.end_frame.getD 0)
          (c.fighter_color.getD (e.fighter_color.getD "unknown"))) anns).isSome
        then "verified" else "manual") ∧
    (buildAnn v e c ab now
        (findIdxOpt (keyMatches (e.start_frame.getD 0) (e.end_frame.getD 0)
          (c.fighter_color.getD (e.fighter_color.getD "unknown"))) anns).isSome).created_at
      = now := by
  refine ⟨?_, rfl, rfl⟩
  cases hi : findIdxOpt (keyMatches (e.start_frame.getD 0) (e.end_frame.getD 0)
      (c.fighter_color.getD (e.fighter_color.getD "unknown"))) anns with
  | none =>
    have hpa1 : keyMatches (e.start_frame.getD 0) (e.end_frame.getD 0)
        (c.fighter_color.getD (e.fighter_color.getD "unknown"))
        { buildAnn v e c ab now false with
          annotation_id := freshAnnotationId v
            (c.fighter_color.getD (e.fighter_color.getD "unknown"))
            (e.start_frame.getD 0) (e.end_frame.getD 0) fresh } = true := by
      rw [keyMatches_set_id]
      exact keyMatches_buildAnn v e c ab now false
    rw [addAnnotation_of_notfound hi]
    exact findFirst_append_none hpa1 hi
  | some i =>
    have hpa1 : keyMatches (e.start_frame.getD 0) (e.end_frame.getD 0)
        (c.fighter_color.getD (e.fighter_color.getD "unknown"))
        { buildAnn v e c ab now true with
          annotation_id := ((getOpt anns i).map Ann.annotation_id).getD "" } = true := by
      rw [keyMatches_set_id]
      exact keyMatches_buildAnn v e c ab now true
    rw [addAnnotation_of_found hi]
    exact findFirst_setAt hpa1 hi

end TKD
